import Mathlib

/-!
Verification of the devlog snapshot daemon core: the watch registry,
the deduplicated diff-capture engine, and daemon startup state loading.
Definitions are a shallow embedding of the Go sources (snapshot.go,
server.go, state.go).  External effects (git child processes, the
filesystem, the wall clock) are passed in explicitly: a `GitWorld`
gives the text produced by the two git invocations for each repository
path, log-file appends are returned as data, and the current hour /
minute / date are parameters.
-/

namespace Devlog

/-- One tracked repository, as in state.go (`WatchEntry`): an absolute
repository path and a project name. -/
structure WatchEntry where
  path : String
  name : String
deriving DecidableEq, Repr

/-- The watch registry: the ordered list `Server.watched`. -/
abbrev Registry := List WatchEntry

/-- The in-memory dedup state `Server.prevDiffs` (a Go `map[string]string`
from repository path to the last written diff), embedded as an
association list with unique keys maintained by the operations below. -/
abbrev DiffMap := List (String × String)

/-- Map lookup: `m[p]` returning `none` when the key is absent. -/
def lookupDiff : DiffMap → String → Option String
  | [], _ => none
  | (k, v) :: rest, p => if k = p then some v else lookupDiff rest p

/-- Go map read `s.prevDiffs[entry.Path]`: the zero value `""` when the
key is absent. -/
def getDiff (m : DiffMap) (p : String) : String :=
  (lookupDiff m p).getD ""

/-- Go map assignment `s.prevDiffs[path] = diff`. -/
def setDiff : DiffMap → String → String → DiffMap
  | [], p, d => [(p, d)]
  | (k, v) :: rest, p, d =>
    if k = p then (k, d) :: rest else (k, v) :: setDiff rest p d

/-- Go `delete(s.prevDiffs, path)`. -/
def delDiff : DiffMap → String → DiffMap
  | [], _ => []
  | (k, v) :: rest, p =>
    if k = p then delDiff rest p else (k, v) :: delDiff rest p

/-- Outcome of the external git phase of a capture (the shadow-index
`git add -A` followed by `git diff --no-color HEAD`, snapshot.go lines
28-41): either a combined failure message or the raw diff text printed
by git.  Indexed by repository path, this is the fixed repository
state a capture cycle observes. -/
abbrev GitWorld := String → Except String String

/-- Go `strings.TrimSpace`: drop leading and trailing whitespace
characters.  (Go trims by `unicode.IsSpace`; the ASCII whitespace
characters recognised by `Char.isWhitespace` — space, tab, carriage
return, newline — are the ones git diff output can produce.) -/
def trimSpace (s : String) : String :=
  String.mk
    (((s.toList.dropWhile Char.isWhitespace).reverse.dropWhile
      Char.isWhitespace).reverse)

/-- Zero-padded two-digit rendering, Go `fmt.Sprintf` verb `%02d`. -/
def pad2 (n : Nat) : String :=
  if n < 10 then "0" ++ toString n else toString n

/-- The snapshot delimiter line (without its newline):
`=== SNAPSHOT HH:MM ===`. -/
def snapshotDelim (hour minute : Nat) : String :=
  "=== SNAPSHOT " ++ pad2 hour ++ ":" ++ pad2 minute ++ " ==="

/-- The header string built at snapshot.go line 67. -/
def snapshotHeader (hour minute : Nat) : String :=
  snapshotDelim hour minute ++ "\n"

/-- Result of one capture: the returned diff string and the block
appended to the log file, when any (`header + diff + "\n"`). -/
structure SnapResult where
  diff : String
  append : Option String
deriving DecidableEq, Repr

/-- takeSnapshot (snapshot.go lines 25-73).  `gitDiff` is the outcome of
the two git child processes; on their failure the capture is abandoned
with an error.  Otherwise: an all-whitespace diff yields `("", no
append)`; a diff byte-identical to `prevDiff` yields `(diff, no
append)` (dedup); any other diff yields `(diff, append of header ++
diff ++ "\n")`.  Filesystem errors on the append path (MkdirAll /
OpenFile / WriteString) are not modelled: the append is returned as
data. -/
def takeSnapshot (gitDiff : Except String String) (prevDiff : String)
    (hour minute : Nat) : Except String SnapResult :=
  match gitDiff with
  | .error e => .error e
  | .ok out =>
    if trimSpace out = "" then .ok ⟨"", none⟩
    else if out = prevDiff then .ok ⟨out, none⟩
    else .ok ⟨out, some (snapshotHeader hour minute ++ out ++ "\n")⟩

/-- Number of log entries a capture result appended: 0 or 1. -/
def appendCount (r : SnapResult) : Nat :=
  match r.append with
  | some _ => 1
  | none => 0

/-- The mutable daemon state relevant to the registry and the scheduler
(server.go `Server`): the watch list, the dedup map, and the calendar
day recorded at the last scheduler firing. -/
structure ServerState where
  watched : Registry
  prevDiffs : DiffMap
  lastDate : String
deriving DecidableEq, Repr

/-- One block appended to a per-project, per-day snapshot log.  The log
file path is `resolveGitPath cfg today name`, a template substitution
of the date and project name; the pair (date, project) determines the
file, so it stands in for the path here. -/
structure LogAppend where
  date : String
  project : String
  block : String
deriving DecidableEq, Repr

/-- The body of the loop in takeSnapshots (server.go lines 308-319) for
one registry entry: read the previous diff from the dedup map, run
takeSnapshot, and on success record a non-empty returned diff as the
new previous diff.  On error the entry is skipped (the Go code logs
and continues). -/
def snapshotStep (world : GitWorld) (today : String) (hour minute : Nat)
    (acc : DiffMap × List LogAppend) (entry : WatchEntry) :
    DiffMap × List LogAppend :=
  let prevDiff := getDiff acc.1 entry.path
  match takeSnapshot (world entry.path) prevDiff hour minute with
  | .error _ => acc
  | .ok r =>
    let appends :=
      match r.append with
      | some b => acc.2 ++ [⟨today, entry.name, b⟩]
      | none => acc.2
    if r.diff ≠ "" then (setDiff acc.1 entry.path r.diff, appends)
    else (acc.1, appends)

/-- takeSnapshots (server.go lines 294-320): on each scheduler firing,
if the calendar day changed since the last firing the dedup map is
reset and the new day recorded, then the capture engine runs over
every watched entry in order.  Returns the new state and the list of
log blocks appended this firing. -/
def takeSnapshots (s : ServerState) (world : GitWorld) (today : String)
    (hour minute : Nat) : ServerState × List LogAppend :=
  let s := if today ≠ s.lastDate then { s with prevDiffs := [], lastDate := today } else s
  let out := s.watched.foldl (snapshotStep world today hour minute) (s.prevDiffs, [])
  ({ s with prevDiffs := out.1 }, out.2)

/-- C1: if the computed diff is non-empty (in the sense of snapshot.go
line 46: not all whitespace) and byte-identical to `prevDiff`, the
capture returns that diff text and appends nothing; and two
consecutive captures on a fixed repository state, the second seeded
with the first call's returned diff, append at most one log entry in
total. -/
theorem takeSnapshot_dedup (d prev : String) (hour minute hour2 minute2 : Nat)
    (hne : trimSpace d ≠ "") :
    takeSnapshot (.ok d) d hour minute = .ok ⟨d, none⟩ ∧
    ∀ r1 r2 : SnapResult,
      takeSnapshot (.ok d) prev hour minute = .ok r1 →
      takeSnapshot (.ok d) r1.diff hour2 minute2 = .ok r2 →
      appendCount r1 + appendCount r2 ≤ 1 := by
  constructor
  · simp [takeSnapshot, hne]
  · intro r1 r2 h1 h2
    simp only [takeSnapshot] at h1
    rw [if_neg hne] at h1
    by_cases hdp : d = prev
    · rw [if_pos hdp] at h1
      have hr1 : r1 = ⟨d, none⟩ := by
        cases h1; rfl
      subst hr1
      simp only [takeSnapshot] at h2
      rw [if_neg hne, if_true] at h2
      have hr2 : r2 = ⟨d, none⟩ := by
        cases h2; rfl
      subst hr2
      simp [appendCount]
    · rw [if_neg hdp] at h1
      have hr1 : r1 = ⟨d, some (snapshotHeader hour minute ++ d ++ "\n")⟩ := by
        cases h1; rfl
      subst hr1
      simp only [takeSnapshot] at h2
      rw [if_neg hne, if_true] at h2
      have hr2 : r2 = ⟨d, none⟩ := by
        cases h2; rfl
      subst hr2
      simp [appendCount]

/-- Witness for C1 at a concrete diff text. -/
theorem takeSnapshot_dedup_witness :
    takeSnapshot (.ok "diff --git a\n") "diff --git a\n" 9 5 = .ok ⟨"diff --git a\n", none⟩ ∧
    ∀ r1 r2 : SnapResult,
      takeSnapshot (.ok "diff --git a\n") "" 9 5 = .ok r1 →
      takeSnapshot (.ok "diff --git a\n") r1.diff 9 6 = .ok r2 →
      appendCount r1 + appendCount r2 ≤ 1 :=
  takeSnapshot_dedup "diff --git a\n" "" 9 5 9 6 (by decide)

/-- C6: a capture whose diff text is all whitespace returns an empty
result without error and appends nothing, and the scheduler loop body
leaves both the dedup map and the append list untouched for that
entry. -/
theorem takeSnapshot_emptyDiff (world : GitWorld) (today : String)
    (hour minute : Nat) (m0 : DiffMap) (ap : List LogAppend)
    (entry : WatchEntry) (d : String)
    (hw : world entry.path = .ok d) (hempty : trimSpace d = "") :
    takeSnapshot (world entry.path) (getDiff m0 entry.path) hour minute =
      .ok ⟨"", none⟩ ∧
    snapshotStep world today hour minute (m0, ap) entry = (m0, ap) := by
  have h1 : takeSnapshot (world entry.path) (getDiff m0 entry.path) hour minute =
      .ok ⟨"", none⟩ := by
    rw [hw]
    simp [takeSnapshot, hempty]
  refine ⟨h1, ?_⟩
  simp [snapshotStep, h1]

/-- Witness for C6 at a whitespace-only diff. -/
theorem takeSnapshot_emptyDiff_witness :
    takeSnapshot ((fun _ => .ok "\n" : GitWorld) "/tmp/r")
      (getDiff [("/tmp/r", "old")] "/tmp/r") 9 5 = .ok ⟨"", none⟩ ∧
    snapshotStep (fun _ => .ok "\n") "2024-01-15" 9 5
      ([("/tmp/r", "old")], []) ⟨"/tmp/r", "r"⟩ = ([("/tmp/r", "old")], []) :=
  takeSnapshot_emptyDiff (fun _ => .ok "\n") "2024-01-15" 9 5
    [("/tmp/r", "old")] [] ⟨"/tmp/r", "r"⟩ "\n" rfl (by decide)

/-- Two-digit zero-padded rendering: `%02d` yields exactly two
characters for values below 100 (hours and minutes always are). -/
theorem pad2_length_two : ∀ n, n < 100 → (pad2 n).length = 2 := by decide

/-- The snapshot delimiter line contains no newline character, for every
valid hour and minute. -/
theorem newline_not_mem_delim :
    ∀ h, h < 24 → ∀ m, m < 60 → Char.ofNat 10 ∉ (snapshotDelim h m).toList := by
  decide

/-- C7: every block a capture appends is exactly the delimiter line
`=== SNAPSHOT HH:MM ===` (a single line: it contains no newline, and
hours and minutes render as exactly two zero-padded digits), a
newline, the raw diff text, and one final newline (since git diff
output itself ends in a newline, the file shows the diff followed by
exactly one blank line); an all-whitespace diff appends no block at
all. -/
theorem snapshot_block_format (d prev : String) (hour minute : Nat)
    (hh : hour < 24) (hm : minute < 60) (r : SnapResult)
    (hr : takeSnapshot (.ok d) prev hour minute = .ok r) :
    (∀ b, r.append = some b → b = snapshotHeader hour minute ++ d ++ "\n") ∧
    snapshotHeader hour minute = snapshotDelim hour minute ++ "\n" ∧
    Char.ofNat 10 ∉ (snapshotDelim hour minute).toList ∧
    (pad2 hour).length = 2 ∧ (pad2 minute).length = 2 ∧
    (trimSpace d = "" → r.append = none) := by
  refine ⟨?_, rfl, newline_not_mem_delim hour hh minute hm,
    pad2_length_two hour (by omega), pad2_length_two minute (by omega), ?_⟩
  · intro b hb
    simp only [takeSnapshot] at hr
    by_cases he : trimSpace d = ""
    · rw [if_pos he] at hr
      cases hr
      simp at hb
    · rw [if_neg he] at hr
      by_cases hdp : d = prev
      · rw [if_pos hdp] at hr
        cases hr
        simp at hb
      · rw [if_neg hdp] at hr
        cases hr
        simp at hb
        exact hb.symm
  · intro he
    simp only [takeSnapshot] at hr
    rw [if_pos he] at hr
    cases hr
    rfl

/-- Witness for C7 at a concrete diff and timestamp. -/
theorem snapshot_block_format_witness :
    (∀ b, (SnapResult.mk "x\n" (some (snapshotHeader 9 5 ++ "x\n" ++ "\n"))).append = some b →
      b = snapshotHeader 9 5 ++ "x\n" ++ "\n") ∧
    snapshotHeader 9 5 = snapshotDelim 9 5 ++ "\n" ∧
    Char.ofNat 10 ∉ (snapshotDelim 9 5).toList ∧
    (pad2 9).length = 2 ∧ (pad2 5).length = 2 ∧
    (trimSpace "x\n" = "" →
      (SnapResult.mk "x\n" (some (snapshotHeader 9 5 ++ "x\n" ++ "\n"))).append = none) :=
  snapshot_block_format "x\n" "" 9 5 (by decide) (by decide)
    ⟨"x\n", some (snapshotHeader 9 5 ++ "x\n" ++ "\n")⟩ (by rfl)

/-- C2: on a firing whose calendar day differs from the recorded one,
the run is identical to a run from an emptied dedup map (the map is
cleared before any capture), and therefore the first capture of the
new day for a watched repository appends a log entry even when its
diff text equals the diff recorded for it the previous day. -/
theorem takeSnapshots_rollover (s : ServerState) (world : GitWorld)
    (today : String) (hour minute : Nat) (hdate : today ≠ s.lastDate) :
    takeSnapshots s world today hour minute =
      takeSnapshots { s with prevDiffs := [], lastDate := today }
        world today hour minute ∧
    ∀ e d, s.watched = [e] → world e.path = .ok d → trimSpace d ≠ "" →
      getDiff s.prevDiffs e.path = d →
      (takeSnapshots s world today hour minute).2 =
        [⟨today, e.name, snapshotHeader hour minute ++ d ++ "\n"⟩] := by
  have hroll : takeSnapshots s world today hour minute =
      takeSnapshots { s with prevDiffs := [], lastDate := today }
        world today hour minute := by
    simp [takeSnapshots, hdate]
  refine ⟨hroll, ?_⟩
  intro e d hw hwd hne _hprev
  have hdne : d ≠ "" := by
    intro h
    exact hne (by rw [h]; rfl)
  have hstep : takeSnapshot (world e.path) (getDiff [] e.path) hour minute =
      .ok ⟨d, some (snapshotHeader hour minute ++ d ++ "\n")⟩ := by
    rw [hwd]
    simp [takeSnapshot, getDiff, lookupDiff, hne, hdne]
  rw [hroll]
  simp [takeSnapshots, hw, List.foldl, snapshotStep, hstep, hdne]

/-- Witness for C2: yesterday's diff for /tmp/r is recorded in the dedup
map, the day changes, and the identical diff is appended again. -/
theorem takeSnapshots_rollover_witness :
    (takeSnapshots ⟨[⟨"/tmp/r", "r"⟩], [("/tmp/r", "x\n")], "2024-01-15"⟩
        (fun _ => .ok "x\n") "2024-01-16" 0 0 =
      takeSnapshots ⟨[⟨"/tmp/r", "r"⟩], [], "2024-01-16"⟩
        (fun _ => .ok "x\n") "2024-01-16" 0 0) ∧
    (takeSnapshots ⟨[⟨"/tmp/r", "r"⟩], [("/tmp/r", "x\n")], "2024-01-15"⟩
        (fun _ => .ok "x\n") "2024-01-16" 0 0).2 =
      [⟨"2024-01-16", "r", snapshotHeader 0 0 ++ "x\n" ++ "\n"⟩] := by
  have h := takeSnapshots_rollover
    ⟨[⟨"/tmp/r", "r"⟩], [("/tmp/r", "x\n")], "2024-01-15"⟩
    (fun _ => .ok "x\n") "2024-01-16" 0 0 (by decide)
  exact ⟨h.1, h.2 ⟨"/tmp/r", "r"⟩ "x\n" rfl rfl (by decide) (by decide)⟩

/-- Outcome of `git rev-parse --show-toplevel` (resolveRepoRoot,
snapshot.go lines 12-19): the canonical repository root for a path, or
a "not a git repository" failure.  An external child-process call,
passed in as a function. -/
abbrev ResolveRoot := String → Except String String

/-- Go `filepath.Base`: the final path segment, after stripping trailing
slashes; "." for the empty path, "/" when the path is all slashes. -/
def baseName (p : String) : String :=
  if p = "" then "."
  else
    let cs := (p.toList.reverse.dropWhile (fun c => c == '/')).reverse
    let last := (cs.reverse.takeWhile (fun c => c != '/')).reverse
    if last = [] then "/" else String.mk last

/-- Go `%q` rendering of a name (server.go line 198); git-derived and
user-supplied project names contain no characters that `%q` escapes,
so this is plain double-quoting. -/
def goQuote (s : String) : String := "\"" ++ s ++ "\""

/-- The error text of server.go lines 198-199. -/
def nameConflictMsg (name path : String) : String :=
  "name conflict: " ++ goQuote name ++ " is already used by " ++ path

/-- A control-plane response as far as the registry commands are
concerned: the full watch list on success, or an error message. -/
inductive WResp where
  | ok (watched : Registry)
  | err (msg : String)
deriving DecidableEq, Repr

/-- Result of a watch/unwatch handler: the server state afterwards, the
response sent, and whether persistState ran (a durable write of the
registry). -/
structure HandleResult where
  state : ServerState
  resp : WResp
  persisted : Bool
deriving DecidableEq, Repr

/-- handleWatch (server.go lines 167-207): resolve the repository root;
if already watched reply with the current list unchanged; else if the
effective name (the override if non-empty, else the root's final path
segment) is taken by another entry, fail with the name-conflict error;
else append the entry and persist. -/
def handleWatch (resolve : ResolveRoot) (s : ServerState)
    (argPath argName : String) : HandleResult :=
  match resolve argPath with
  | .error e => ⟨s, .err e, false⟩
  | .ok root =>
    let name := if argName = "" then baseName root else argName
    match s.watched.find? (fun w => w.path == root) with
    | some _ => ⟨s, .ok s.watched, false⟩
    | none =>
      match s.watched.find? (fun w => w.name == name) with
      | some w => ⟨s, .err (nameConflictMsg name w.path), false⟩
      | none =>
        let watched := s.watched ++ [⟨root, name⟩]
        ⟨{ s with watched := watched }, .ok watched, true⟩

/-- handleUnwatch (server.go lines 209-241): resolve the root, drop
every entry with that path while deleting its dedup-map key, reply
with the resulting list, and persist only when something matched. -/
def handleUnwatch (resolve : ResolveRoot) (s : ServerState)
    (argPath : String) : HandleResult :=
  match resolve argPath with
  | .error e => ⟨s, .err e, false⟩
  | .ok root =>
    let found := s.watched.any (fun w => w.path == root)
    let newWatched := s.watched.filter (fun w => w.path != root)
    let newDiffs := if found then delDiff s.prevDiffs root else s.prevDiffs
    ⟨⟨newWatched, newDiffs, s.lastDate⟩, .ok newWatched, found⟩

/-- One control-plane mutation of the registry. -/
inductive Op where
  | watch (path name : String)
  | unwatch (path : String)
deriving DecidableEq, Repr

/-- Apply one mutation, keeping only the resulting server state. -/
def applyOp (resolve : ResolveRoot) (s : ServerState) : Op → ServerState
  | Op.watch p n => (handleWatch resolve s p n).state
  | Op.unwatch p => (handleUnwatch resolve s p).state

/-- Apply a sequence of watch/unwatch mutations in order. -/
def applyOps (resolve : ResolveRoot) (s : ServerState) (ops : List Op) :
    ServerState :=
  ops.foldl (applyOp resolve) s

/-- No two registry entries share a name. -/
def namesNodup (r : Registry) : Prop :=
  (r.map WatchEntry.name).Nodup

/-- No two registry entries share a path. -/
def pathsNodup (r : Registry) : Prop :=
  (r.map WatchEntry.path).Nodup

instance decidableNamesNodup (r : Registry) : Decidable (namesNodup r) :=
  inferInstanceAs (Decidable (r.map WatchEntry.name).Nodup)

instance decidablePathsNodup (r : Registry) : Decidable (pathsNodup r) :=
  inferInstanceAs (Decidable (r.map WatchEntry.path).Nodup)

/-- The durable registry document (state.go `State`). -/
structure State where
  watched : Registry
deriving DecidableEq, Repr

/-- Outcome of reading the durable registry file. -/
inductive FileRead where
  | notExist
  | readErr (e : String)
  | content (data : String)
deriving DecidableEq, Repr

/-- loadState (state.go lines 19-33), with `os.ReadFile` passed in as a
`FileRead` and `json.Unmarshal` as a parse function: a missing file
yields an empty registry and no error; a read failure or an
unparseable document yields an empty registry together with the
wrapped error. -/
def loadState (read : FileRead) (parse : String → Except String State) :
    State × Option String :=
  match read with
  | .notExist => (⟨[]⟩, none)
  | .readErr e => (⟨[]⟩, some ("reading state: " ++ e))
  | .content data =>
    match parse data with
    | .error e => (⟨[]⟩, some ("parsing state: " ++ e))
    | .ok st => (st, none)

/-- The watch list the daemon starts with (server.go lines 87-91):
`state, _ := loadState()` discards the error and installs
`state.Watched`. -/
def serverStartupWatched (read : FileRead)
    (parse : String → Except String State) : Registry :=
  (loadState read parse).1.watched

/-- C3: watching a path whose resolved root is already in the registry
returns the registry unchanged with a success response and no
persistence, regardless of the name argument; and applying the same
watch twice yields the same server state as applying it once. -/
theorem handleWatch_idempotent (resolve : ResolveRoot) (s : ServerState)
    (argPath argName : String) :
    (∀ root, resolve argPath = .ok root → (∃ w ∈ s.watched, w.path = root) →
      handleWatch resolve s argPath argName = ⟨s, .ok s.watched, false⟩) ∧
    (handleWatch resolve (handleWatch resolve s argPath argName).state
        argPath argName).state =
      (handleWatch resolve s argPath argName).state := by
  constructor
  · intro root hres hmem
    obtain ⟨w, hw, hwp⟩ := hmem
    have hex : ∃ x ∈ s.watched, ((fun w => w.path == root) x : Bool) :=
      ⟨w, hw, by simp [hwp]⟩
    obtain ⟨w2, hf⟩ := Option.isSome_iff_exists.mp (List.find?_isSome.mpr hex)
    simp [handleWatch, hres, hf]
  · cases hres : resolve argPath with
    | error e => simp [handleWatch, hres]
    | ok root =>
      cases hf : s.watched.find? (fun w => w.path == root) with
      | some w => simp [handleWatch, hres, hf]
      | none =>
        cases hg : s.watched.find?
            (fun w => w.name == (if argName = "" then baseName root else argName)) with
        | some w => simp [handleWatch, hres, hf, hg]
        | none =>
          have hf2 : (s.watched ++
              [(⟨root, if argName = "" then baseName root else argName⟩ : WatchEntry)]).find?
              (fun w => w.path == root) =
              some (⟨root, if argName = "" then baseName root else argName⟩ : WatchEntry) := by
            rw [List.find?_append, hf]
            simp [List.find?]
          simp [handleWatch, hres, hf, hg, hf2]

/-- Witness for C3: a second watch of an already-present path is a
no-op, and a fresh watch is idempotent. -/
theorem handleWatch_idempotent_witness :
    (handleWatch (fun p => .ok p)
        ⟨[⟨"/tmp/a", "a"⟩], [], "2024-01-15"⟩ "/tmp/a" "other" =
      ⟨⟨[⟨"/tmp/a", "a"⟩], [], "2024-01-15"⟩, .ok [⟨"/tmp/a", "a"⟩], false⟩) ∧
    (handleWatch (fun p => .ok p)
        (handleWatch (fun p => .ok p) ⟨[], [], "2024-01-15"⟩ "/tmp/b" "").state
        "/tmp/b" "").state =
      (handleWatch (fun p => .ok p) ⟨[], [], "2024-01-15"⟩ "/tmp/b" "").state :=
  ⟨(handleWatch_idempotent (fun p => .ok p)
      ⟨[⟨"/tmp/a", "a"⟩], [], "2024-01-15"⟩ "/tmp/a" "other").1 "/tmp/a" rfl
      ⟨⟨"/tmp/a", "a"⟩, by decide, rfl⟩,
    (handleWatch_idempotent (fun p => .ok p)
      ⟨[], [], "2024-01-15"⟩ "/tmp/b" "").2⟩

/-- C5: watching a not-yet-watched path whose effective name is already
taken by an entry with a different path fails with the name-conflict
error naming that entry's path, and leaves the server state unchanged
without persisting. -/
theorem handleWatch_nameConflict (resolve : ResolveRoot) (s : ServerState)
    (argPath argName root : String) (w : WatchEntry)
    (hres : resolve argPath = .ok root)
    (hnew : ∀ x ∈ s.watched, x.path ≠ root)
    (hconf : s.watched.find?
      (fun x => x.name == (if argName = "" then baseName root else argName)) =
      some w) :
    handleWatch resolve s argPath argName =
      ⟨s, .err (nameConflictMsg
        (if argName = "" then baseName root else argName) w.path), false⟩ ∧
    w.path ≠ root := by
  have hf : s.watched.find? (fun x => x.path == root) = none := by
    rw [List.find?_eq_none]
    intro x hx
    simp [hnew x hx]
  refine ⟨by simp [handleWatch, hres, hf, hconf], ?_⟩
  exact hnew w (List.mem_of_find?_eq_some hconf)

/-- Witness for C5: the spec scenario — /tmp/a is watched as "a"; a
watch of /tmp/b with override name "a" fails naming /tmp/a, with the
registry untouched and nothing persisted. -/
theorem handleWatch_nameConflict_witness :
    handleWatch (fun p => .ok p)
      ⟨[⟨"/tmp/a", "a"⟩], [], "2024-01-15"⟩ "/tmp/b" "a" =
      ⟨⟨[⟨"/tmp/a", "a"⟩], [], "2024-01-15"⟩,
        .err (nameConflictMsg (if ("a" : String) = "" then baseName "/tmp/b" else "a")
          "/tmp/a"), false⟩ ∧
    ("/tmp/a" : String) ≠ "/tmp/b" :=
  handleWatch_nameConflict (fun p => .ok p)
    ⟨[⟨"/tmp/a", "a"⟩], [], "2024-01-15"⟩ "/tmp/b" "a" "/tmp/b" ⟨"/tmp/a", "a"⟩
    rfl (by decide) (by decide)

/-- Deleting a key removes it from the dedup map. -/
theorem lookupDiff_delDiff (m : DiffMap) (p : String) :
    lookupDiff (delDiff m p) p = none := by
  induction m with
  | nil => rfl
  | cons kv rest ih =>
    by_cases h : kv.1 = p
    · simpa [delDiff, h] using ih
    · simpa [delDiff, lookupDiff, h] using ih

/-- C9: unwatching a watched path also deletes that path's entry from
the in-memory dedup map; consequently, after re-watching, the next
capture of that repository appends a log entry even when its diff is
byte-identical to the last diff written before the unwatch. -/
theorem handleUnwatch_clears_dedup (resolve : ResolveRoot) (s : ServerState)
    (argPath root : String) (hres : resolve argPath = .ok root)
    (hw : s.watched.any (fun w => w.path == root) = true) :
    lookupDiff (handleUnwatch resolve s argPath).state.prevDiffs root = none ∧
    ∀ (e : WatchEntry) (world : GitWorld) (today : String)
      (hour minute : Nat) (ap : List LogAppend) (d : String),
      e.path = root → world root = .ok d → trimSpace d ≠ "" →
      getDiff s.prevDiffs root = d →
      (snapshotStep world today hour minute
        ((handleUnwatch resolve s argPath).state.prevDiffs, ap) e).2 =
        ap ++ [⟨today, e.name, snapshotHeader hour minute ++ d ++ "\n"⟩] := by
  have hdiffs : (handleUnwatch resolve s argPath).state.prevDiffs =
      delDiff s.prevDiffs root := by
    simp [handleUnwatch, hres, hw]
  refine ⟨by rw [hdiffs]; exact lookupDiff_delDiff s.prevDiffs root, ?_⟩
  intro e world today hour minute ap d hep hwd hne _hprev
  have hdne : d ≠ "" := by
    intro h
    exact hne (by rw [h]; rfl)
  have hget : getDiff (handleUnwatch resolve s argPath).state.prevDiffs e.path = "" := by
    rw [hep, hdiffs]
    simp [getDiff, lookupDiff_delDiff]
  have hstep : takeSnapshot (world e.path)
      (getDiff (handleUnwatch resolve s argPath).state.prevDiffs e.path)
      hour minute = .ok ⟨d, some (snapshotHeader hour minute ++ d ++ "\n")⟩ := by
    rw [hget, hep, hwd]
    simp [takeSnapshot, hne, hdne]
  simp [snapshotStep, hstep, hdne]

/-- Witness for C9: /tmp/r is unwatched with a recorded diff "x\n"; the
dedup entry is gone, and a subsequent capture of the identical diff
appends again. -/
theorem handleUnwatch_clears_dedup_witness :
    lookupDiff (handleUnwatch (fun p => .ok p)
      ⟨[⟨"/tmp/r", "r"⟩], [("/tmp/r", "x\n")], "2024-01-15"⟩
      "/tmp/r").state.prevDiffs "/tmp/r" = none ∧
    (snapshotStep (fun _ => .ok "x\n") "2024-01-15" 9 5
      ((handleUnwatch (fun p => .ok p)
        ⟨[⟨"/tmp/r", "r"⟩], [("/tmp/r", "x\n")], "2024-01-15"⟩
        "/tmp/r").state.prevDiffs, []) ⟨"/tmp/r", "r"⟩).2 =
      [] ++ [⟨"2024-01-15", "r", snapshotHeader 9 5 ++ "x\n" ++ "\n"⟩] := by
  have h := handleUnwatch_clears_dedup (fun p => .ok p)
    ⟨[⟨"/tmp/r", "r"⟩], [("/tmp/r", "x\n")], "2024-01-15"⟩ "/tmp/r" "/tmp/r"
    rfl (by decide)
  exact ⟨h.1, h.2 ⟨"/tmp/r", "r"⟩ (fun _ => .ok "x\n") "2024-01-15" 9 5 [] "x\n"
    rfl rfl (by decide) (by decide)⟩

/-- C10: if the durable registry file exists but does not parse,
loadState returns an empty registry together with the wrapped parse
error, and daemon startup — which discards that error — runs with an
empty watch list instead of failing. -/
theorem loadState_corrupt (data e : String)
    (parse : String → Except String State)
    (hparse : parse data = .error e) :
    loadState (.content data) parse = (⟨[]⟩, some ("parsing state: " ++ e)) ∧
    serverStartupWatched (.content data) parse = [] := by
  constructor <;> simp [loadState, serverStartupWatched, hparse]

/-- Witness for C10 with a concrete unparseable document. -/
theorem loadState_corrupt_witness :
    loadState (.content "garbage")
        (fun _ => .error "invalid character g") =
      (⟨[]⟩, some ("parsing state: " ++ "invalid character g")) ∧
    serverStartupWatched (.content "garbage")
        (fun _ => .error "invalid character g") = [] :=
  loadState_corrupt "garbage" "invalid character g"
    (fun _ => .error "invalid character g") rfl

/-- C4 counterexample: a registry whose entries have distinct names but
a shared path already violates path-uniqueness, and one add operation
later still does — so name-uniqueness of the start state alone does
not give the claimed path-uniqueness at every point. -/
theorem registry_invariant_claim_cex :
    namesNodup ([⟨"/a", "x"⟩, ⟨"/a", "y"⟩] : Registry) ∧
    ¬ pathsNodup (applyOps (fun p => .ok p)
      ⟨[⟨"/a", "x"⟩, ⟨"/a", "y"⟩], [], "2024-01-15"⟩
      [Op.watch "/b" ""]).watched := by
  decide

/-- One watch or unwatch step keeps names and paths duplicate-free. -/
theorem applyOp_preserves_nodup (resolve : ResolveRoot) (s : ServerState)
    (hn : namesNodup s.watched) (hp : pathsNodup s.watched) (op : Op) :
    namesNodup (applyOp resolve s op).watched ∧
    pathsNodup (applyOp resolve s op).watched := by
  cases op with
  | watch p n =>
    cases hres : resolve p with
    | error e => simpa [applyOp, handleWatch, hres] using ⟨hn, hp⟩
    | ok root =>
      cases hf : s.watched.find? (fun w => w.path == root) with
      | some w => simpa [applyOp, handleWatch, hres, hf] using ⟨hn, hp⟩
      | none =>
        cases hg : s.watched.find?
            (fun w => w.name == (if n = "" then baseName root else n)) with
        | some w => simpa [applyOp, handleWatch, hres, hf, hg] using ⟨hn, hp⟩
        | none =>
          have hwatched : (applyOp resolve s (Op.watch p n)).watched =
              s.watched ++
                [(⟨root, if n = "" then baseName root else n⟩ : WatchEntry)] := by
            simp [applyOp, handleWatch, hres, hf, hg]
          rw [hwatched]
          constructor
          · simp only [namesNodup, List.map_append, List.map_cons, List.map_nil]
            rw [List.nodup_append]
            refine ⟨hn, List.nodup_singleton _, ?_⟩
            intro a ha hb
            have hab : a = (if n = "" then baseName root else n) := by simpa using hb
            subst hab
            obtain ⟨x, hx, hxn⟩ := List.mem_map.mp ha
            have hgx := List.find?_eq_none.mp hg x hx
            simp [hxn] at hgx
          · simp only [pathsNodup, List.map_append, List.map_cons, List.map_nil]
            rw [List.nodup_append]
            refine ⟨hp, List.nodup_singleton _, ?_⟩
            intro a ha hb
            have hab : a = root := by simpa using hb
            subst hab
            obtain ⟨x, hx, hxp⟩ := List.mem_map.mp ha
            have hfx := List.find?_eq_none.mp hf x hx
            simp [hxp] at hfx
  | unwatch p =>
    cases hres : resolve p with
    | error e => simpa [applyOp, handleUnwatch, hres] using ⟨hn, hp⟩
    | ok root =>
      have hwatched : (applyOp resolve s (Op.unwatch p)).watched =
          s.watched.filter (fun w => w.path != root) := by
        simp [applyOp, handleUnwatch, hres]
      rw [hwatched]
      exact ⟨List.Nodup.sublist ((List.filter_sublist s.watched).map WatchEntry.name) hn,
        List.Nodup.sublist ((List.filter_sublist s.watched).map WatchEntry.path) hp⟩

/-- C4 amended: starting from a registry in which no two entries share a
name and no two entries share a path (e.g. the empty registry), after
any sequence of watch/unwatch operations no two entries share a name
and no two entries share a path — and since the operation sequence is
arbitrary, this holds at every intermediate point. -/
theorem registry_invariant_preserved (resolve : ResolveRoot) (s : ServerState)
    (hn : namesNodup s.watched) (hp : pathsNodup s.watched) :
    ∀ ops : List Op, namesNodup (applyOps resolve s ops).watched ∧
      pathsNodup (applyOps resolve s ops).watched := by
  suffices h : ∀ ops : List Op, ∀ t : ServerState,
      namesNodup t.watched → pathsNodup t.watched →
      namesNodup (applyOps resolve t ops).watched ∧
      pathsNodup (applyOps resolve t ops).watched by
    intro ops
    exact h ops s hn hp
  intro ops
  induction ops with
  | nil =>
    intro t htn htp
    exact ⟨htn, htp⟩
  | cons op rest ih =>
    intro t htn htp
    have h1 := applyOp_preserves_nodup resolve t htn htp op
    simpa [applyOps] using ih (applyOp resolve t op) h1.1 h1.2

/-- Witness for the amended C4: from the empty registry, a watch
followed by an unwatch keeps names and paths duplicate-free. -/
theorem registry_invariant_preserved_witness :
    namesNodup (applyOps (fun p => .ok p) ⟨[], [], "2024-01-15"⟩
      [Op.watch "/tmp/a" "", Op.unwatch "/tmp/a"]).watched ∧
    pathsNodup (applyOps (fun p => .ok p) ⟨[], [], "2024-01-15"⟩
      [Op.watch "/tmp/a" "", Op.unwatch "/tmp/a"]).watched :=
  registry_invariant_preserved (fun p => .ok p) ⟨[], [], "2024-01-15"⟩
    (by decide) (by decide) [Op.watch "/tmp/a" "", Op.unwatch "/tmp/a"]

end Devlog
